import Mathlib

/-
  Verification development for the mvprec repository's item-to-item (I2I)
  similarity programs:

  * src/train/itemCFI2I.py      (co-occurrence path, class ItemCFI2I)
  * src/train/itemEmbeddingI2I.py (embedding path, class ItemEmbeddingI2I)

  Modelling conventions:
  * item ids and user ids are natural numbers;
  * Python floats are modelled as exact rationals (ℚ) in the executable
    pipeline; the metric formulas that involve `np.sqrt` / `np.log2`
    (irrational values) are additionally given exact real-valued (ℝ)
    definitions for the value-level claims, while the executable pipeline
    receives `sqrtF`/`log2F` stand-in parameters for those two numpy
    functions (no claim settled on the pipeline depends on their values);
  * a `heapq` min-heap of `(sim, item)` tuples is modelled by the sorted
    list of its contents.  `heapq.heappush` adds an element and
    `heapq.heappushpop h x` replaces the root `h[0]` by `x` exactly when
    `h[0] < x` in Python tuple (lexicographic) order; both are fully
    determined at the level of the multiset of contents, which is all the
    code ever observes apart from the internal array order (only the order
    of rows inside one anchor's output block depends on it, and no claim
    mentions that order);
  * Python dicts / defaultdicts keyed by item are modelled as association
    lists in key-insertion order (`getD` / `upsert` below), matching dict
    iteration order;
  * `DataFrame.to_csv(..., mode='a')` writes a header line followed by one
    line per data row (pandas writes the header on every call by default);
    an output line is modelled by the type `Row`.
-/

namespace MVPRec

/-! ### The heapq model: lines 61-70 of itemCFI2I.py

An entry is the Python tuple `(sim, item)`; Python compares tuples
lexicographically. -/

abbrev Entry := ℚ × Nat

/-- Strict Python tuple order on `(sim, item)` pairs. -/
def entLt (a b : Entry) : Prop := a.1 < b.1 ∨ (a.1 = b.1 ∧ a.2 < b.2)

/-- Reflexive Python tuple order on `(sim, item)` pairs. -/
def entLe (a b : Entry) : Prop := a.1 < b.1 ∨ (a.1 = b.1 ∧ a.2 ≤ b.2)

instance (a b : Entry) : Decidable (entLt a b) :=
  inferInstanceAs (Decidable (_ ∨ _))

instance (a b : Entry) : Decidable (entLe a b) :=
  inferInstanceAs (Decidable (_ ∨ _))

/-- Insert an entry into a list sorted ascending by `entLe`, keeping it
sorted: the canonical representation of the heap contents. -/
def heapInsert (x : Entry) : List Entry → List Entry
  | [] => [x]
  | y :: ys => if entLe x y then x :: y :: ys else y :: heapInsert x ys

/-- `heapq.heappush h x`: add `x` to the heap. -/
def heappush (h : List Entry) (x : Entry) : List Entry := heapInsert x h

/-- `heapq.heappushpop h x`: push `x`, then pop and drop the minimum.
On a nonempty heap whose root (minimum) `m` satisfies `m < x` in tuple
order, the root is replaced by `x`; otherwise the heap is unchanged
(`x` itself is popped straight back).  On an empty heap `x` is pushed and
immediately popped, leaving the heap empty. -/
def heappushpop (h : List Entry) (x : Entry) : List Entry :=
  match h with
  | [] => []
  | m :: rest => if entLt m x then heapInsert x rest else m :: rest

/-- Lines 61-70 of itemCFI2I.py, the per-anchor top-N update (and §4.3
`offer` of the spec): push unconditionally while below capacity, else
push-and-pop through the min-heap. -/
def offer (topN : Nat) (h : List Entry) (x : Entry) : List Entry :=
  if h.length < topN then heappush h x else heappushpop h x

/-! ### CoOccurrenceIndex: lines 23-28 of itemCFI2I.py

The loop
    for user_id, item_id in group[['user_id', 'item_id']].values:
        user_items[user_id].add(item_id)
        item_users[item_id].add(user_id)
adds every row unconditionally.  The functions below give the resulting
mappings extensionally.  The key type is generic: the well-formed pipeline
uses `Nat` keys, and the malformed-row analysis uses `Option Nat`, where
`none` stands for the NaN a missing CSV cell becomes. -/

def userItemsOf {U I : Type} [DecidableEq U] [DecidableEq I]
    (rows : List (U × I)) (u : U) : Finset I :=
  ((rows.filter (fun r => r.1 = u)).map Prod.snd).toFinset

def itemUsersOf {U I : Type} [DecidableEq U] [DecidableEq I]
    (rows : List (U × I)) (i : I) : Finset U :=
  ((rows.filter (fun r => r.2 = i)).map Prod.fst).toFinset

/-- The two mappings built by lines 23-28, on rows whose cells may be
missing (`none` = NaN): the code performs no validation, so malformed
rows are inserted like any others. -/
def buildIndex (rows : List (Option Nat × Option Nat)) :
    (Option Nat → Finset (Option Nat)) × (Option Nat → Finset (Option Nat)) :=
  (userItemsOf rows, itemUsersOf rows)

/-! ### SimilarityMetric: lines 48-57 of itemCFI2I.py -/

/-- Line 48: `len(common_users) / len(item_users[i] | item_users[j])`. -/
def jaccardSim (itemUsers : Nat → Finset Nat) (i j : Nat) : ℚ :=
  ((itemUsers i ∩ itemUsers j).card : ℚ) / ((itemUsers i ∪ itemUsers j).card : ℚ)

/-- One summand of line 57: `1 / (alpha + len(user_items[u] & user_items[v]))`. -/
def swingTerm (userItems : Nat → Finset Nat) (alpha : ℚ) (u v : Nat) : ℚ :=
  1 / (alpha + ((userItems u ∩ userItems v).card : ℚ))

/-- All unordered pairs of a list in enumeration order: the double loop
`for i ...: for j in range(i+1, ...)` of lines 41-43, and also
`itertools.combinations(l, 2)`. -/
def pairsOf {α : Type} : List α → List (α × α)
  | [] => []
  | x :: xs => (xs.map (fun y => (x, y))) ++ pairsOf xs

/-- Lines 54-57: `sum(1 / (alpha + len(user_items[u] & user_items[v])) for
(u, v) in combinations(common_users, 2))`.  The common-user set is
enumerated through its canonical (sorted) listing; the sum over ℚ does not
depend on the enumeration order. -/
def swingSim (userItems itemUsers : Nat → Finset Nat) (alpha : ℚ) (i j : Nat) : ℚ :=
  ((pairsOf ((itemUsers i ∩ itemUsers j).sort (· ≤ ·))).map
    (fun p => swingTerm userItems alpha p.1 p.2)).sum

/-- Line 50, with `np.sqrt` exact: `len(common) / np.sqrt(len(U_i) * len(U_j))`. -/
noncomputable def cosineSim (itemUsers : Nat → Finset Nat) (i j : Nat) : ℝ :=
  ((itemUsers i ∩ itemUsers j).card : ℝ) /
    Real.sqrt (((itemUsers i).card * (itemUsers j).card : ℕ) : ℝ)

/-- Line 31, with `np.log2` exact: `1 / np.log2(3 + len(items))`. -/
noncomputable def userWeightR (userItems : Nat → Finset Nat) (u : Nat) : ℝ :=
  1 / Real.logb 2 (3 + ((userItems u).card : ℝ))

/-- Line 34, with `np.sqrt` exact: `np.sqrt(sum(user_weights[u] for u in users))`. -/
noncomputable def itemWeightR (userItems itemUsers : Nat → Finset Nat) (i : Nat) : ℝ :=
  Real.sqrt (∑ u ∈ itemUsers i, userWeightR userItems u)

/-- Line 52, with exact reals:
`sum(user_weights[u] for u in common) / (item_weights[i] * item_weights[j])`. -/
noncomputable def wbCosineSim (userItems itemUsers : Nat → Finset Nat) (i j : Nat) : ℝ :=
  (∑ u ∈ itemUsers i ∩ itemUsers j, userWeightR userItems u) /
    (itemWeightR userItems itemUsers i * itemWeightR userItems itemUsers j)

/-! ### The dict model: association lists in key-insertion order -/

/-- `dict` lookup with a default (`defaultdict` read). -/
def getD {α : Type} (m : List (Nat × α)) (k : Nat) (d : α) : α :=
  match m with
  | [] => d
  | (k1, v) :: rest => if k1 = k then v else getD rest k d

/-- `dict` store: replace the value at an existing key in place, else
append the new key at the end (Python dicts keep insertion order). -/
def upsert {α : Type} (m : List (Nat × α)) (k : Nat) (v : α) : List (Nat × α) :=
  match m with
  | [] => [(k, v)]
  | (k1, v1) :: rest => if k1 = k then (k, v) :: rest else (k1, v1) :: upsert rest k v

/-! ### GroupSimilarityComputer: ItemCFI2I.calc_similarity, lines 22-72 -/

/-- The single `ValueError('Invalid similarity type.')` of line 59. -/
inductive CFErr
  | invalidSimType
deriving DecidableEq, Repr

/-- `list(item_users.keys())` of line 39: item ids in order of first
occurrence among the rows (`item_users` is a dict, whose keys keep
insertion order). -/
def firstOccur (l : List Nat) : List Nat :=
  l.foldl (fun acc x => if x ∈ acc then acc else acc ++ [x]) []

/-- The metric dispatch of lines 48-59 for one pair with nonempty common
users: `none` models reaching the `raise` on line 59.  `sqrtF` and `log2F`
stand in for `np.sqrt` and `np.log2`. -/
def simOf (sqrtF log2F : ℚ → ℚ) (simType : String) (alpha : ℚ)
    (userItems itemUsers : Nat → Finset Nat) (i j : Nat) : Option ℚ :=
  if simType = "jaccard" then
    some (jaccardSim itemUsers i j)
  else if simType = "cosine" then
    some (((itemUsers i ∩ itemUsers j).card : ℚ) /
      sqrtF (((itemUsers i).card * (itemUsers j).card : ℕ) : ℚ))
  else if simType = "wb_cosine" then
    some ((∑ u ∈ itemUsers i ∩ itemUsers j, 1 / log2F (3 + ((userItems u).card : ℚ))) /
      (sqrtF (∑ u ∈ itemUsers i, 1 / log2F (3 + ((userItems u).card : ℚ))) *
       sqrtF (∑ u ∈ itemUsers j, 1 / log2F (3 + ((userItems u).card : ℚ)))))
  else if simType = "swing" then
    some (swingSim userItems itemUsers alpha i j)
  else
    none

/-- The body of the pair loop, lines 44-70: skip the pair when the common
user set is empty, otherwise score it (or raise) and offer the score to
both anchors' heaps. -/
def stepPair (sqrtF log2F : ℚ → ℚ) (simType : String) (topN : Nat) (alpha : ℚ)
    (userItems itemUsers : Nat → Finset Nat)
    (m : List (Nat × List Entry)) (p : Nat × Nat) :
    Except CFErr (List (Nat × List Entry)) :=
  if itemUsers p.1 ∩ itemUsers p.2 = ∅ then
    Except.ok m
  else
    match simOf sqrtF log2F simType alpha userItems itemUsers p.1 p.2 with
    | none => Except.error CFErr.invalidSimType
    | some sim =>
      let m1 := upsert m p.1 (offer topN (getD m p.1 []) (sim, p.2))
      Except.ok (upsert m1 p.2 (offer topN (getD m1 p.2 []) (sim, p.1)))

/-- ItemCFI2I.calc_similarity (lines 22-72) on the rows of one group:
build the two index mappings, read `alpha` from `sim_params` (default 1),
enumerate the unordered item pairs in loop order and fold the pair body
over them.  The result is the `item_pairs` dict as an association list in
key-insertion order. -/
def calcSimilarity (sqrtF log2F : ℚ → ℚ) (simType : String) (topN : Nat)
    (simParams : List (String × ℚ)) (rows : List (Nat × Nat)) :
    Except CFErr (List (Nat × List Entry)) :=
  let userItems := userItemsOf rows
  let itemUsers := itemUsersOf rows
  let alpha := (simParams.lookup ("alpha" : String)).getD 1
  let items := firstOccur (rows.map Prod.snd)
  (pairsOf items).foldlM (stepPair sqrtF log2F simType topN alpha userItems itemUsers) []

/-! ### ResultSink: ItemCFI2I.output_result (lines 74-84) and the
identical ItemEmbeddingI2I.output_result (lines 53-63)

`result.to_csv(self.output, index=False, mode='a')` appends a header line
`item1,item2,score` (pandas default `header=True`) followed by one line
per data row. -/

/-- One line of the output file: the pandas header line, or a data line
`item1,item2,score`. -/
inductive Row
  | header
  | edge (item1 item2 : Nat) (score : ℚ)
deriving DecidableEq, Repr

/-- The data rows of one `output_result` call: for each anchor in dict
order, one `(item, pair_item, score)` row per retained entry. -/
def edgeRows (pairs : List (Nat × List Entry)) : List Row :=
  (pairs.map (fun q => q.2.map (fun e => Row.edge q.1 e.2 e.1))).flatten

/-- One `output_result` call (lines 74-84 resp. 53-63): the appended
content is the header line followed by the data rows. -/
def outputResult (pairs : List (Nat × List Entry)) : List Row :=
  Row.header :: edgeRows pairs

/-- The output loop of ItemCFI2I.run (lines 90-92): one `output_result`
append per group result, in order. -/
def runOutputs (results : List (List (Nat × List Entry))) : List Row :=
  (results.map outputResult).flatten

/-- ItemCFI2I.run (lines 86-92): compute every group with calc_similarity
(the process pool preserves group order), then append each group's output. -/
def runCF (sqrtF log2F : ℚ → ℚ) (simType : String) (topN : Nat)
    (simParams : List (String × ℚ)) (groups : List (List (Nat × Nat))) :
    Except CFErr (List Row) := do
  let results ← groups.mapM (calcSimilarity sqrtF log2F simType topN simParams)
  pure (runOutputs results)

/-! ### VectorNeighborSearch: ItemEmbeddingI2I, itemEmbeddingI2I.py

The faiss flat indices are modelled exactly: `IndexFlatIP` scores a query
against every stored vector by inner product and returns the `k` best
(largest score first), `IndexFlatL2` by squared Euclidean distance
(smallest first).  Ties are broken by the smaller vector index, matching
the sequential scan of the flat index (an equal-scoring later candidate
does not displace an earlier one).  `faiss.normalize_L2` involves a
square root, so it is a `normalizeF` stand-in parameter; every claim
settled here uses `normalize = false`. -/

/-- Inner product of two vectors. -/
def ipScore (v w : List ℚ) : ℚ := (List.zipWith (fun a b => a * b) v w).sum

/-- Squared Euclidean distance of two vectors (faiss L2 metric). -/
def l2Score (v w : List ℚ) : ℚ := (List.zipWith (fun a b => (a - b) ^ 2) v w).sum

/-- Insert into a list ranked by `rank` (true when the first argument
belongs no later than the second), keeping the ranking. -/
def insertRanked {α : Type} (rank : α → α → Bool) (x : α) : List α → List α
  | [] => [x]
  | y :: ys => if rank x y then x :: y :: ys else y :: insertRanked rank x ys

/-- Sort by `rank` via ordered insertion. -/
def sortRanked {α : Type} (rank : α → α → Bool) (l : List α) : List α :=
  l.foldr (insertRanked rank) []

/-- IndexFlatIP result order on `(score, index)`: larger score first,
smaller index first among equal scores. -/
def rankIP (a b : ℚ × Nat) : Bool := b.1 < a.1 || (a.1 = b.1 && a.2 ≤ b.2)

/-- IndexFlatL2 result order on `(distance, index)`: smaller distance
first, smaller index first among equal distances. -/
def rankL2 (a b : ℚ × Nat) : Bool := a.1 < b.1 || (a.1 = b.1 && a.2 ≤ b.2)

/-- `index.search` for one query vector: score every stored vector, rank,
and keep the best `k` as `(score, index)` pairs (line 43 searches with
`k = top_n + 1`). -/
def searchE (indexType : String) (embs : List (List ℚ)) (q : List ℚ) (k : Nat) :
    List (ℚ × Nat) :=
  let scored := embs.enum.map (fun ie =>
    ((if indexType = "IndexFlatL2" then l2Score q ie.2 else ipScore q ie.2), ie.1))
  (sortRanked (if indexType = "IndexFlatL2" then rankL2 else rankIP) scored).take k

/-- The `ValueError(f'Invalid index type: ...')` of line 39. -/
inductive EmbErr
  | invalidIndexType (indexType : String)
deriving DecidableEq, Repr

/-- Lines 47-49, one search hit `(score, j)` for the query at position `i`
whose item id is `itemI`: append `(score, ids[j])` to `item_pairs[itemI]`
when `j` is not the query's own position and the score passes the
threshold, else leave the dict unchanged. -/
def embAppendStep (threshold : ℚ) (ids : List Nat) (i itemI : Nat)
    (m : List (Nat × List (ℚ × Nat))) (sj : ℚ × Nat) :
    List (Nat × List (ℚ × Nat)) :=
  if i ≠ sj.2 ∧ threshold ≤ sj.1 then
    upsert m itemI (getD m itemI [] ++ [(sj.1, ids.getD sj.2 0)])
  else m

/-- Lines 46-49, one iteration of `for i, item_i in enumerate(ids)`:
fold the append step over the `top_n + 1` search hits of query `i`. -/
def embQueryStep (indexType : String) (topN : Nat) (threshold : ℚ)
    (ids : List Nat) (embs1 : List (List ℚ))
    (m : List (Nat × List (ℚ × Nat))) (ii : Nat × Nat) :
    List (Nat × List (ℚ × Nat)) :=
  (searchE indexType embs1 (embs1.getD ii.1 []) (topN + 1)).foldl
    (embAppendStep threshold ids ii.1 ii.2) m

/-- The entries query `i` contributes to its own item's list: the search
hits that survive the identity and threshold filter, mapped to
`(score, ids[j])`. -/
def passesOf (threshold : ℚ) (ids : List Nat) (i : Nat)
    (res : List (ℚ × Nat)) : List (ℚ × Nat) :=
  (res.filter (fun sj => decide (i ≠ sj.2 ∧ threshold ≤ sj.1))).map
    (fun sj => (sj.1, ids.getD sj.2 0))

/-- ItemEmbeddingI2I.calc_similarity (lines 30-51): optionally normalize,
dispatch on the index type (raising on anything but the two flat
families), add all vectors, search each vector's `top_n + 1` nearest
neighbors, and keep `(score, ids[j])` for every hit `j` that is not the
query's own position and whose score passes the threshold.  `item_pairs`
is a defaultdict: a key appears from its first append on. -/
def calcSimilarityE (normalizeF : List (List ℚ) → List (List ℚ))
    (indexType : String) (normalize : Bool) (topN : Nat) (threshold : ℚ)
    (ids : List Nat) (embs : List (List ℚ)) :
    Except EmbErr (List (Nat × List (ℚ × Nat))) :=
  let embs1 := if normalize then normalizeF embs else embs
  if indexType = "IndexFlatIP" ∨ indexType = "IndexFlatL2" then
    Except.ok (ids.enum.foldl (embQueryStep indexType topN threshold ids embs1) [])
  else
    Except.error (EmbErr.invalidIndexType indexType)

/-- An observable step of ItemEmbeddingI2I.run: loading the snapshot's
vectors, or appending output rows. -/
inductive EmbEv
  | load (nVectors : Nat)
  | write (rows : List Row)
deriving DecidableEq, Repr

/-- ItemEmbeddingI2I.run (lines 65-68): `load_data()` first (reading every
vector from the latest snapshot file), then `calc_similarity`, then
`output_result`; the trace records the observable steps in order. -/
def runE (normalizeF : List (List ℚ) → List (List ℚ))
    (indexType : String) (normalize : Bool) (topN : Nat) (threshold : ℚ)
    (ids : List Nat) (embs : List (List ℚ)) :
    List EmbEv × Option EmbErr :=
  match calcSimilarityE normalizeF indexType normalize topN threshold ids embs with
  | Except.error e => ([EmbEv.load embs.length], some e)
  | Except.ok pairs => ([EmbEv.load embs.length, EmbEv.write (outputResult pairs)], none)

/-! ## Helper lemmas -/

theorem heapInsert_perm (x : Entry) (l : List Entry) :
    List.Perm (heapInsert x l) (x :: l) := by
  induction l with
  | nil => exact List.Perm.refl _
  | cons y ys ih =>
    unfold heapInsert
    by_cases hxy : entLe x y
    · simp only [if_pos hxy]
      exact List.Perm.refl _
    · simp only [if_neg hxy]
      exact (ih.cons y).trans (List.Perm.swap x y ys)

theorem length_heapInsert (x : Entry) (l : List Entry) :
    (heapInsert x l).length = l.length + 1 := by
  induction l with
  | nil => rfl
  | cons y ys ih =>
    unfold heapInsert
    by_cases hxy : entLe x y
    · simp [if_pos hxy]
    · simp [if_neg hxy, ih]

theorem length_offer_le {topN : Nat} {h : List Entry} (x : Entry)
    (hlen : h.length ≤ topN) : (offer topN h x).length ≤ topN := by
  unfold offer
  by_cases hlt : h.length < topN
  · simp only [if_pos hlt, heappush, length_heapInsert]
    exact hlt
  · simp only [if_neg hlt]
    match h with
    | [] => simp [heappushpop]
    | m :: rest =>
      unfold heappushpop
      by_cases hmx : entLt m x
      · simp only [if_pos hmx, length_heapInsert]
        simpa using hlen
      · simp only [if_neg hmx]
        exact hlen

/-! ## C1: top-N offer behaviour at capacity -/

/-- Claim C1: at capacity, the claim says an offer whose score is not
strictly greater than the current minimum retained score is discarded and
the structure unchanged.  This is false: `heapq` compares the whole
`(score, neighbor)` tuples, so with capacity 1 and retained entry
`(1/2, 1)`, the offer `(1/2, 2)` — equal score, not strictly greater —
nevertheless evicts the minimum and replaces it. -/
theorem C1_counterexample :
    ¬ ((0 : ℚ) > (0 : ℚ)) ∧
      offer 1 [((0 : ℚ), 1)] ((0 : ℚ), 2) = [((0 : ℚ), 2)] :=
  ⟨lt_irrefl _, rfl⟩

/-- Claim C1 as amended: below capacity every offer is inserted
unconditionally; at capacity the decision compares the full
`(score, neighbor)` tuples lexicographically — the offer evicts exactly
the current minimum entry `m` and is inserted iff `m < x` in tuple order.
In particular a strictly greater score always evicts the minimum, a
strictly smaller score is always discarded, and on equal scores the offer
evicts the minimum iff its neighbor id is strictly greater than the
minimum's. -/
theorem C1_amended (topN : Nat) (x m : Entry) (rest : List Entry)
    (hcap : (m :: rest).length = topN) (_hmin : ∀ e ∈ m :: rest, entLe m e) :
    (offer topN (m :: rest) x = if entLt m x then heapInsert x rest else m :: rest) ∧
    (m.1 < x.1 → offer topN (m :: rest) x = heapInsert x rest ∧
      List.Perm (offer topN (m :: rest) x) (x :: rest)) ∧
    (x.1 < m.1 → offer topN (m :: rest) x = m :: rest) ∧
    (x.1 = m.1 →
      offer topN (m :: rest) x = if m.2 < x.2 then heapInsert x rest else m :: rest) ∧
    (∀ h2 : List Entry, h2.length < topN → offer topN h2 x = heapInsert x h2) := by
  have hnotlt : ¬ (m :: rest).length < topN := by omega
  have hoffer : offer topN (m :: rest) x =
      if entLt m x then heapInsert x rest else m :: rest := by
    simp only [offer, if_neg hnotlt, heappushpop]
  refine ⟨hoffer, ?_, ?_, ?_, ?_⟩
  · intro hgt
    have hlt : entLt m x := Or.inl hgt
    rw [hoffer, if_pos hlt]
    exact ⟨rfl, heapInsert_perm x rest⟩
  · intro hless
    have hnl : ¬ entLt m x := by
      rintro (h1 | ⟨h2, -⟩)
      · exact absurd hless (not_lt_of_lt h1)
      · exact absurd hless (by rw [h2]; exact lt_irrefl _)
    rw [hoffer, if_neg hnl]
  · intro heq
    rw [hoffer]
    by_cases hn : m.2 < x.2
    · have hl : entLt m x := Or.inr ⟨heq.symm, hn⟩
      rw [if_pos hn, if_pos hl]
    · rw [if_neg hn]
      have hnl : ¬ entLt m x := by
        rintro (h1 | ⟨-, h2⟩)
        · exact absurd h1 (by rw [heq]; exact lt_irrefl _)
        · exact hn h2
      rw [if_neg hnl]
  · intro h2 hlt
    simp only [offer, if_pos hlt, heappush]

/-- Witness for C1: capacity 1 with retained minimum `(0, 1)`: the
equal-scored offer `(0, 2)` falls in the tuple tie-break case, and an
under-capacity (empty) heap takes an offer unconditionally. -/
theorem C1_witness :
    offer 1 [((0 : ℚ), 1)] ((0 : ℚ), 2) =
      (if ((0 : ℚ), (1 : Nat)).2 < ((0 : ℚ), (2 : Nat)).2 then
        heapInsert ((0 : ℚ), 2) [] else [((0 : ℚ), 1)]) ∧
    offer 1 ([] : List Entry) ((0 : ℚ), 2) = heapInsert ((0 : ℚ), 2) [] := by
  have h := C1_amended 1 ((0 : ℚ), 2) ((0 : ℚ), 1) [] rfl (by decide)
  exact ⟨h.2.2.2.1 rfl, h.2.2.2.2 [] (by decide)⟩

/-! ## Membership in the co-occurrence index -/

theorem mem_userItemsOf {U I : Type} [DecidableEq U] [DecidableEq I]
    {rows : List (U × I)} {u : U} {i : I} :
    i ∈ userItemsOf rows u ↔ (u, i) ∈ rows := by
  simp only [userItemsOf, List.mem_toFinset, List.mem_map, List.mem_filter,
    decide_eq_true_eq]
  constructor
  · rintro ⟨⟨a, b⟩, ⟨hr, hu⟩, hi⟩
    simp only at hu hi
    rw [← hu, ← hi]
    exact hr
  · intro h
    exact ⟨(u, i), ⟨h, rfl⟩, rfl⟩

theorem mem_itemUsersOf {U I : Type} [DecidableEq U] [DecidableEq I]
    {rows : List (U × I)} {u : U} {i : I} :
    u ∈ itemUsersOf rows i ↔ (u, i) ∈ rows := by
  simp only [itemUsersOf, List.mem_toFinset, List.mem_map, List.mem_filter,
    decide_eq_true_eq]
  constructor
  · rintro ⟨⟨a, b⟩, ⟨hr, hi⟩, hu⟩
    simp only at hu hi
    rw [← hu, ← hi]
    exact hr
  · intro h
    exact ⟨(u, i), ⟨h, rfl⟩, rfl⟩

/-! ## C2: the concrete jaccard scenario

Users u1, u2, u3 are 1, 2, 3; items a, b, c are 10, 20, 30.  The group's
rows are u1:{a,b}, u2:{a,b,c}, u3:{b,c}. -/

/-- Claim C2 fails on the code: it asserts jaccard(a,b) = 1.0, computed as
`|{u1,u2}| / |{u1,u2}|`.  But `U_a ∪ U_b = {u1,u2,u3}` (u3 interacted
with b), so the code computes jaccard(a,b) = 2/3 ≠ 1. -/
theorem C2_counterexample :
    jaccardSim (itemUsersOf [(1,10),(1,20),(2,10),(2,20),(2,30),(3,20),(3,30)]) 10 20 =
      (2 : ℚ)/3 ∧ ((2 : ℚ)/3 ≠ 1) :=
  ⟨by with_unfolding_all rfl, by norm_num⟩

/-- Claim C2 as amended: in the scenario the pair scores are
jaccard(a,b) = 2/3 (not 1.0: the user union is {u1,u2,u3}),
jaccard(a,c) = 1/3 and jaccard(b,c) = 2/3, and the retained top-2 sets
are a = {b: 2/3, c: 1/3}, b = {a: 2/3, c: 2/3}, c = {b: 2/3, a: 1/3}.
The pipeline result below is stated for arbitrary stand-ins for
`np.sqrt`/`np.log2`, which the jaccard path never evaluates. -/
theorem C2_amended : ∀ sqrtF log2F : ℚ → ℚ,
    calcSimilarity sqrtF log2F ("jaccard") 2 []
        [(1,10),(1,20),(2,10),(2,20),(2,30),(3,20),(3,30)] =
      Except.ok [(10, [((1 : ℚ)/3, 30), ((2 : ℚ)/3, 20)]),
                 (20, [((2 : ℚ)/3, 10), ((2 : ℚ)/3, 30)]),
                 (30, [((1 : ℚ)/3, 10), ((2 : ℚ)/3, 20)])] ∧
    jaccardSim (itemUsersOf [(1,10),(1,20),(2,10),(2,20),(2,30),(3,20),(3,30)]) 10 20 =
      (2 : ℚ)/3 ∧
    jaccardSim (itemUsersOf [(1,10),(1,20),(2,10),(2,20),(2,30),(3,20),(3,30)]) 10 30 =
      (1 : ℚ)/3 ∧
    jaccardSim (itemUsersOf [(1,10),(1,20),(2,10),(2,20),(2,30),(3,20),(3,30)]) 20 30 =
      (2 : ℚ)/3 := by
  intro sqrtF log2F
  refine ⟨?_, ?_, ?_, ?_⟩ <;> with_unfolding_all rfl

/-! ## C4: malformed rows are not skipped -/

/-- Claim C4 fails on the code: a row with a missing user id (`none`,
the NaN a missing cell becomes) is claimed to contribute to neither
mapping, but lines 23-28 perform no validation: the row is inserted into
both mappings with the missing value as an ordinary key/element, and no
error of any kind is raised (the build cannot fail). -/
theorem C4_counterexample :
    (buildIndex [(none, some 5)]).1 none = {some 5} ∧
    (buildIndex [(none, some 5)]).2 (some 5) = {none} :=
  ⟨by decide, by decide⟩

/-- Claim C4 as amended: the index build performs no malformed-row
detection at all — every row, including rows whose user id or item id is
missing (NaN, modelled `none`), is inserted into both the user-to-items
and the item-to-users mapping, with the missing value acting as an
ordinary key or element; no `MalformedRecord` (or any other) error is
surfaced and processing continues over all rows. -/
theorem C4_amended (rows : List (Option Nat × Option Nat)) (u i : Option Nat)
    (hmem : (u, i) ∈ rows) :
    i ∈ (buildIndex rows).1 u ∧ u ∈ (buildIndex rows).2 i :=
  ⟨mem_userItemsOf.mpr hmem, mem_itemUsersOf.mpr hmem⟩

/-- Witness for C4: the malformed row `(none, some 5)` lands in both
mappings. -/
theorem C4_witness :
    some 5 ∈ (buildIndex [(none, some 5)]).1 none ∧
    none ∈ (buildIndex [(none, some 5)]).2 (some 5) :=
  C4_amended [(none, some 5)] none (some 5) (by decide)

/-! ## C5: where the invalid-similarity-type error is raised -/

theorem simOf_eq_none {sqrtF log2F : ℚ → ℚ} {simType : String} {alpha : ℚ}
    {userItems itemUsers : Nat → Finset Nat} {i j : Nat}
    (h1 : simType ≠ "jaccard") (h2 : simType ≠ "cosine")
    (h3 : simType ≠ "wb_cosine") (h4 : simType ≠ "swing") :
    simOf sqrtF log2F simType alpha userItems itemUsers i j = none := by
  simp [simOf, h1, h2, h3, h4]

theorem foldlM_stepPair_bad (sqrtF log2F : ℚ → ℚ) (simType : String)
    (topN : Nat) (alpha : ℚ) (userItems itemUsers : Nat → Finset Nat)
    (hbad : ∀ i j, simOf sqrtF log2F simType alpha userItems itemUsers i j = none) :
    ∀ (l : List (Nat × Nat)) (m : List (Nat × List Entry)),
      ((∀ p ∈ l, itemUsers p.1 ∩ itemUsers p.2 = ∅) →
        l.foldlM (stepPair sqrtF log2F simType topN alpha userItems itemUsers) m =
          Except.ok m) ∧
      ((∃ p ∈ l, itemUsers p.1 ∩ itemUsers p.2 ≠ ∅) →
        l.foldlM (stepPair sqrtF log2F simType topN alpha userItems itemUsers) m =
          Except.error CFErr.invalidSimType) := by
  intro l
  induction l with
  | nil =>
    intro m
    refine ⟨fun _ => rfl, ?_⟩
    rintro ⟨p, hp, -⟩
    cases hp
  | cons q l ih =>
    intro m
    by_cases hq : itemUsers q.1 ∩ itemUsers q.2 = ∅
    · have hstep : stepPair sqrtF log2F simType topN alpha userItems itemUsers m q =
          Except.ok m := by
        simp [stepPair, hq]
      have hfold :
          (q :: l).foldlM (stepPair sqrtF log2F simType topN alpha userItems itemUsers) m =
            l.foldlM (stepPair sqrtF log2F simType topN alpha userItems itemUsers) m := by
        rw [List.foldlM_cons, hstep]
        rfl
      constructor
      · intro hall
        rw [hfold]
        exact (ih m).1 (fun p hp => hall p (List.mem_cons_of_mem q hp))
      · rintro ⟨p, hp, hne⟩
        rw [hfold]
        rcases List.mem_cons.1 hp with hqq | hl
        · exact absurd hq (hqq ▸ hne)
        · exact (ih m).2 ⟨p, hl, hne⟩
    · have hstep : stepPair sqrtF log2F simType topN alpha userItems itemUsers m q =
          Except.error CFErr.invalidSimType := by
        simp [stepPair, hq, hbad]
      have hfold :
          (q :: l).foldlM (stepPair sqrtF log2F simType topN alpha userItems itemUsers) m =
            Except.error CFErr.invalidSimType := by
        rw [List.foldlM_cons, hstep]
        rfl
      exact ⟨fun hall => absurd (hall q (List.mem_cons_self q l)) hq, fun _ => hfold⟩

/-- Claim C5 fails on the code: it asserts an unsupported similarity-type
name raises before any pairwise computation starts, even when no item pair
has common users.  But the `raise` of line 59 sits inside the pair loop,
behind the empty-intersection `continue` of lines 44-46: with an invalid
name and a two-item group whose items share no user, the computation
completes without error and returns an empty result. -/
theorem C5_counterexample :
    calcSimilarity id id ("bogus") 10 [] [(1, 100), (2, 200)] = Except.ok [] ∧
    itemUsersOf [(1, 100), (2, 200)] 100 ∩ itemUsersOf [(1, 100), (2, 200)] 200 = ∅ :=
  ⟨by with_unfolding_all rfl, by decide⟩

/-- Claim C5 as amended: the similarity-type name is checked per pair, not
up front — with a name outside {jaccard, cosine, wb_cosine, swing} the
group computation raises the invalid-type error iff some enumerated item
pair has a nonempty common-user set (at the first such pair); if every
pair has an empty common-user set, no error is raised and the computation
returns an empty result. -/
theorem C5_amended (sqrtF log2F : ℚ → ℚ) (simType : String) (topN : Nat)
    (simParams : List (String × ℚ)) (rows : List (Nat × Nat))
    (h1 : simType ≠ "jaccard") (h2 : simType ≠ "cosine")
    (h3 : simType ≠ "wb_cosine") (h4 : simType ≠ "swing") :
    ((∀ p ∈ pairsOf (firstOccur (rows.map Prod.snd)),
        itemUsersOf rows p.1 ∩ itemUsersOf rows p.2 = ∅) →
      calcSimilarity sqrtF log2F simType topN simParams rows = Except.ok []) ∧
    ((∃ p ∈ pairsOf (firstOccur (rows.map Prod.snd)),
        itemUsersOf rows p.1 ∩ itemUsersOf rows p.2 ≠ ∅) →
      calcSimilarity sqrtF log2F simType topN simParams rows =
        Except.error CFErr.invalidSimType) := by
  have h := foldlM_stepPair_bad sqrtF log2F simType topN
    ((simParams.lookup ("alpha" : String)).getD 1) (userItemsOf rows) (itemUsersOf rows)
    (fun i j => simOf_eq_none h1 h2 h3 h4)
    (pairsOf (firstOccur (rows.map Prod.snd))) []
  exact h

/-- Witness for C5: with the unsupported name "bogus", a group whose two
items share a user errors out, and one whose items share no user
completes with an empty result. -/
theorem C5_witness :
    calcSimilarity id id ("bogus") 10 [] [(1, 100), (1, 200)] =
      Except.error CFErr.invalidSimType ∧
    calcSimilarity id id ("bogus") 10 [] [(1, 100), (2, 200)] = Except.ok [] := by
  constructor
  · exact (C5_amended id id ("bogus") 10 [] [(1, 100), (1, 200)]
      (by decide) (by decide) (by decide) (by decide)).2 ⟨(100, 200), by decide, by decide⟩
  · exact (C5_amended id id ("bogus") 10 [] [(1, 100), (2, 200)]
      (by decide) (by decide) (by decide) (by decide)).1 (by decide)

/-! ## C7: the swing user-pair term

The scenario: items 1, 2 form the pair (i, j); users 10 and 11 are the
only common users, and both also interacted with item 3 — exactly one
shared item beyond the pair under scoring. -/

/-- Claim C7 fails on the code: line 57 divides by
`alpha + len(user_items[u] & user_items[v])`, and that overlap includes
the pair's own items i and j.  In the claim's scenario the overlap is
{1, 2, 3} of size 3, so with alpha = 1 the user-pair term is
1/(1+3) = 1/4, not 1/(1+1) = 0.5. -/
theorem C7_counterexample :
    swingTerm (userItemsOf [(10,1),(10,2),(10,3),(11,1),(11,2),(11,3)]) 1 10 11 =
      (1 : ℚ)/4 ∧
    ((1 : ℚ)/4 ≠ 1/2) ∧
    calcSimilarity id id ("swing") 5 [] [(10,1),(10,2),(10,3),(11,1),(11,2),(11,3)] =
      Except.ok [(1, [((1 : ℚ)/4, 2), ((1 : ℚ)/4, 3)]),
                 (2, [((1 : ℚ)/4, 1), ((1 : ℚ)/4, 3)]),
                 (3, [((1 : ℚ)/4, 1), ((1 : ℚ)/4, 2)])] :=
  ⟨by with_unfolding_all rfl, by norm_num, by with_unfolding_all rfl⟩

/-- Claim C7 as amended: for a user pair (u, v) drawn from the common
users of an item pair (i, j), the shared-item overlap counted on line 57
necessarily contains i and j themselves; when u and v share exactly one
item beyond that context (overlap of size 3), the user-pair term is
`1 / (alpha + 3)`, i.e. 1/4 for alpha = 1 — not 0.5. -/
theorem C7_amended (rows : List (Nat × Nat)) (alpha : ℚ) (i j u v : Nat)
    (hu : u ∈ itemUsersOf rows i ∩ itemUsersOf rows j)
    (hv : v ∈ itemUsersOf rows i ∩ itemUsersOf rows j)
    (hcard : (userItemsOf rows u ∩ userItemsOf rows v).card = 3) :
    ({i, j} : Finset Nat) ⊆ userItemsOf rows u ∩ userItemsOf rows v ∧
    swingTerm (userItemsOf rows) alpha u v = 1 / (alpha + 3) ∧
    (alpha = 1 → swingTerm (userItemsOf rows) alpha u v = (1 : ℚ)/4) := by
  obtain ⟨hui, huj⟩ := Finset.mem_inter.1 hu
  obtain ⟨hvi, hvj⟩ := Finset.mem_inter.1 hv
  have hsub : ({i, j} : Finset Nat) ⊆ userItemsOf rows u ∩ userItemsOf rows v := by
    intro x hx
    rcases Finset.mem_insert.1 hx with hxi | hxj
    · subst hxi
      exact Finset.mem_inter.2
        ⟨mem_userItemsOf.mpr (mem_itemUsersOf.mp hui),
         mem_userItemsOf.mpr (mem_itemUsersOf.mp hvi)⟩
    · rw [Finset.mem_singleton] at hxj
      subst hxj
      exact Finset.mem_inter.2
        ⟨mem_userItemsOf.mpr (mem_itemUsersOf.mp huj),
         mem_userItemsOf.mpr (mem_itemUsersOf.mp hvj)⟩
  have hterm : swingTerm (userItemsOf rows) alpha u v = 1 / (alpha + 3) := by
    rw [swingTerm, hcard]
    norm_num
  refine ⟨hsub, hterm, ?_⟩
  intro halpha
  rw [hterm, halpha]
  norm_num

/-- Witness for C7: the scenario rows; the overlap of users 10 and 11
contains the pair {1, 2}, and the swing term with alpha = 1 is 1/4. -/
theorem C7_witness :
    ({1, 2} : Finset Nat) ⊆
      userItemsOf [(10,1),(10,2),(10,3),(11,1),(11,2),(11,3)] 10 ∩
        userItemsOf [(10,1),(10,2),(10,3),(11,1),(11,2),(11,3)] 11 ∧
    swingTerm (userItemsOf [(10,1),(10,2),(10,3),(11,1),(11,2),(11,3)]) 1 10 11 =
      (1 : ℚ)/4 := by
  have h := C7_amended [(10,1),(10,2),(10,3),(11,1),(11,2),(11,3)] 1 1 2 10 11
    (by decide) (by decide) (by decide)
  exact ⟨h.1, h.2.2 rfl⟩

/-! ## C8: symmetry of the four metrics -/

/-- Claim C8: for every unordered pair with nonempty common-user set, each
of the four metric formulas of lines 48-57 yields the same score with its
arguments swapped, under the same group-wide auxiliary state
(the user-to-items map and, through it, the user and item weights).
In the exact model equality of values is exact equality; the underlying
float computation is also order-independent here because intersection,
union and products of the same operands are commuted unchanged. -/
theorem C8_symmetry (userItems itemUsers : Nat → Finset Nat) (alpha : ℚ) (i j : Nat)
    (_hne : itemUsers i ∩ itemUsers j ≠ ∅) :
    jaccardSim itemUsers i j = jaccardSim itemUsers j i ∧
    cosineSim itemUsers i j = cosineSim itemUsers j i ∧
    wbCosineSim userItems itemUsers i j = wbCosineSim userItems itemUsers j i ∧
    swingSim userItems itemUsers alpha i j = swingSim userItems itemUsers alpha j i := by
  refine ⟨?_, ?_, ?_, ?_⟩
  · rw [jaccardSim, jaccardSim, Finset.inter_comm, Finset.union_comm]
  · rw [cosineSim, cosineSim, Finset.inter_comm, Nat.mul_comm]
  · rw [wbCosineSim, wbCosineSim, Finset.inter_comm, mul_comm]
  · rw [swingSim, swingSim, Finset.inter_comm]

/-- Witness for C8: a two-item group with one shared user. -/
theorem C8_witness :
    jaccardSim (itemUsersOf [(1,10),(1,20)]) 10 20 =
      jaccardSim (itemUsersOf [(1,10),(1,20)]) 20 10 ∧
    cosineSim (itemUsersOf [(1,10),(1,20)]) 10 20 =
      cosineSim (itemUsersOf [(1,10),(1,20)]) 20 10 ∧
    wbCosineSim (userItemsOf [(1,10),(1,20)]) (itemUsersOf [(1,10),(1,20)]) 10 20 =
      wbCosineSim (userItemsOf [(1,10),(1,20)]) (itemUsersOf [(1,10),(1,20)]) 20 10 ∧
    swingSim (userItemsOf [(1,10),(1,20)]) (itemUsersOf [(1,10),(1,20)]) 1 10 20 =
      swingSim (userItemsOf [(1,10),(1,20)]) (itemUsersOf [(1,10),(1,20)]) 1 20 10 :=
  C8_symmetry (userItemsOf [(1,10),(1,20)]) (itemUsersOf [(1,10),(1,20)]) 1 10 20
    (by decide)

/-! ## C9: what one output append actually contains -/

/-- Claim C9 fails on the code: `to_csv(..., mode='a')` writes the pandas
header line on every call (default `header=True`), so the appended content
is never only edge rows — a one-group run appends a header row followed by
its edge rows, and the header row is not an edge row. -/
theorem C9_counterexample :
    runCF id id ("jaccard") 10 [] [[(1, 10), (1, 20)]] =
      Except.ok [Row.header, Row.edge 10 20 1, Row.edge 20 10 1] ∧
    (∀ a b s, (Row.header : Row) ≠ Row.edge a b s) :=
  ⟨by with_unfolding_all rfl, fun a b s h => Row.noConfusion h⟩

/-- Claim C9 as amended: each `output_result` call appends one header row
`item1,item2,score` followed by exactly one row per retained directed edge
(in dict order of the anchors), and a run over several groups appends one
such header-prefixed block per group. -/
theorem C9_amended (pairs : List (Nat × List Entry))
    (results : List (List (Nat × List Entry))) :
    outputResult pairs = Row.header :: edgeRows pairs ∧
    (edgeRows pairs).length = (pairs.map (fun q => q.2.length)).sum ∧
    runOutputs results = (results.map (fun r => Row.header :: edgeRows r)).flatten := by
  refine ⟨rfl, ?_, rfl⟩
  simp [edgeRows, List.length_flatten, List.map_map, Function.comp_def]

/-! ## C10: swing's zero scores on singleton common-user sets -/

theorem userWeightR_pos (userItems : Nat → Finset Nat) (u : Nat) :
    0 < userWeightR userItems u := by
  rw [userWeightR]
  have hgt : (1 : ℝ) < 3 + ((userItems u).card : ℝ) := by
    have hc : (0 : ℝ) ≤ ((userItems u).card : ℝ) := Nat.cast_nonneg _
    linarith
  exact one_div_pos.2 (Real.logb_pos (by norm_num) hgt)

/-- Claim C10: with metric swing, a pair whose common-user set has exactly
one user gets score 0 (there is no unordered user pair to sum over), the
zero-scored pair is still offered to both anchors' heaps and appears in
the output, occupying top-N capacity (shown with top_n = 1); under the
other three metrics a nonempty common-user set always yields a strictly
positive score. -/
theorem C10_theorem :
    (∀ (rows : List (Nat × Nat)) (alpha : ℚ) (i j : Nat),
        (itemUsersOf rows i ∩ itemUsersOf rows j).card = 1 →
          swingSim (userItemsOf rows) (itemUsersOf rows) alpha i j = 0) ∧
    calcSimilarity id id ("swing") 1 [] [(1, 10), (1, 20)] =
      Except.ok [(10, [((0 : ℚ), 20)]), (20, [((0 : ℚ), 10)])] ∧
    outputResult [(10, [((0 : ℚ), 20)]), (20, [((0 : ℚ), 10)])] =
      [Row.header, Row.edge 10 20 0, Row.edge 20 10 0] ∧
    (∀ (itemUsers : Nat → Finset Nat) (i j : Nat),
        itemUsers i ∩ itemUsers j ≠ ∅ → 0 < jaccardSim itemUsers i j) ∧
    (∀ (itemUsers : Nat → Finset Nat) (i j : Nat),
        itemUsers i ∩ itemUsers j ≠ ∅ → 0 < cosineSim itemUsers i j) ∧
    (∀ (userItems itemUsers : Nat → Finset Nat) (i j : Nat),
        itemUsers i ∩ itemUsers j ≠ ∅ →
          0 < wbCosineSim userItems itemUsers i j) := by
  refine ⟨?_, by with_unfolding_all rfl, by rfl, ?_, ?_, ?_⟩
  · intro rows alpha i j hcard
    have hlen : ((itemUsersOf rows i ∩ itemUsersOf rows j).sort (· ≤ ·)).length = 1 := by
      rw [Finset.length_sort]
      exact hcard
    obtain ⟨a, ha⟩ := List.length_eq_one.1 hlen
    rw [swingSim, ha]
    rfl
  · intro itemUsers i j hne
    have hnon : (itemUsers i ∩ itemUsers j).Nonempty := Finset.nonempty_iff_ne_empty.2 hne
    have h1 : 0 < ((itemUsers i ∩ itemUsers j).card : ℚ) := by
      exact_mod_cast Finset.card_pos.2 hnon
    have h2 : 0 < ((itemUsers i ∪ itemUsers j).card : ℚ) := by
      exact_mod_cast Finset.card_pos.2 (hnon.mono Finset.inter_subset_union)
    exact div_pos h1 h2
  · intro itemUsers i j hne
    have hnon : (itemUsers i ∩ itemUsers j).Nonempty := Finset.nonempty_iff_ne_empty.2 hne
    have h1 : 0 < ((itemUsers i ∩ itemUsers j).card : ℝ) := by
      exact_mod_cast Finset.card_pos.2 hnon
    have h2 : 0 < (((itemUsers i).card * (itemUsers j).card : ℕ) : ℝ) := by
      exact_mod_cast Nat.mul_pos
        (Finset.card_pos.2 (hnon.mono Finset.inter_subset_left))
        (Finset.card_pos.2 (hnon.mono Finset.inter_subset_right))
    exact div_pos h1 (Real.sqrt_pos.2 h2)
  · intro userItems itemUsers i j hne
    have hnon : (itemUsers i ∩ itemUsers j).Nonempty := Finset.nonempty_iff_ne_empty.2 hne
    have hnum : 0 < ∑ u ∈ itemUsers i ∩ itemUsers j, userWeightR userItems u :=
      Finset.sum_pos (fun u _ => userWeightR_pos userItems u) hnon
    have hwi : 0 < itemWeightR userItems itemUsers i := by
      rw [itemWeightR]
      exact Real.sqrt_pos.2 (Finset.sum_pos (fun u _ => userWeightR_pos userItems u)
        (hnon.mono Finset.inter_subset_left))
    have hwj : 0 < itemWeightR userItems itemUsers j := by
      rw [itemWeightR]
      exact Real.sqrt_pos.2 (Finset.sum_pos (fun u _ => userWeightR_pos userItems u)
        (hnon.mono Finset.inter_subset_right))
    exact div_pos hnum (mul_pos hwi hwj)

/-- Witness for C10: the single-common-user group [(1,10),(1,20)] gets
swing score 0, while jaccard on the same group is strictly positive. -/
theorem C10_witness :
    swingSim (userItemsOf [(1, 10), (1, 20)]) (itemUsersOf [(1, 10), (1, 20)]) 1 10 20 = 0 ∧
    0 < jaccardSim (itemUsersOf [(1, 10), (1, 20)]) 10 20 :=
  ⟨C10_theorem.1 [(1, 10), (1, 20)] 1 10 20 (by decide),
   C10_theorem.2.2.2.1 (itemUsersOf [(1, 10), (1, 20)]) 10 20 (by decide)⟩

/-! ## C6: where the invalid-index-type error is raised -/

/-- Claim C6 fails on the code: `ItemEmbeddingI2I.run` calls `load_data()`
first, so with an unsupported index type the snapshot's vectors are all
loaded before `calc_similarity` raises — the trace of the failing run
contains the load event (here: one vector loaded) even though the run
errors with the invalid-index-type error. -/
theorem C6_counterexample :
    runE id ("IndexHNSWFlat") false 10 0 [7] [[1]] =
      ([EmbEv.load 1], some (EmbErr.invalidIndexType ("IndexHNSWFlat"))) ∧
    EmbEv.load 1 ∈ (runE id ("IndexHNSWFlat") false 10 0 [7] [[1]]).1 := by
  have h : runE id ("IndexHNSWFlat") false 10 0 [7] [[1]] =
      ([EmbEv.load 1], some (EmbErr.invalidIndexType ("IndexHNSWFlat"))) := by
    with_unfolding_all rfl
  refine ⟨h, ?_⟩
  rw [h]
  exact List.mem_singleton.2 rfl

/-- Claim C6 as amended: with an index type outside the two supported
families, the run fails with the invalid-index-type error raised inside
`calc_similarity` — after `load_data` has loaded every embedding vector
from the snapshot, but before any index is built or searched and before
any output is written (the trace holds exactly the load event and no write
event). -/
theorem C6_amended (normalizeF : List (List ℚ) → List (List ℚ))
    (indexType : String) (normalize : Bool) (topN : Nat) (threshold : ℚ)
    (ids : List Nat) (embs : List (List ℚ))
    (h1 : indexType ≠ "IndexFlatIP") (h2 : indexType ≠ "IndexFlatL2") :
    runE normalizeF indexType normalize topN threshold ids embs =
      ([EmbEv.load embs.length], some (EmbErr.invalidIndexType indexType)) := by
  have hcalc : calcSimilarityE normalizeF indexType normalize topN threshold ids embs =
      Except.error (EmbErr.invalidIndexType indexType) := by
    simp [calcSimilarityE, h1, h2]
  simp [runE, hcalc]

/-- Witness for C6: a two-vector snapshot with an unsupported index type
loads both vectors and then errors. -/
theorem C6_witness :
    runE id ("IndexHNSWFlat") false 10 0 [7, 8] [[1], [2]] =
      ([EmbEv.load 2], some (EmbErr.invalidIndexType ("IndexHNSWFlat"))) :=
  C6_amended id ("IndexHNSWFlat") false 10 0 [7, 8] [[1], [2]] (by decide) (by decide)

/-! ## C3: association-list lemmas -/

theorem mem_upsert {α : Type} {m : List (Nat × α)} {k : Nat} {v : α}
    {kv : Nat × α} (h : kv ∈ upsert m k v) : kv = (k, v) ∨ kv ∈ m := by
  induction m with
  | nil =>
    rcases List.mem_singleton.1 h with rfl
    exact Or.inl rfl
  | cons hd tl ih =>
    obtain ⟨k1, v1⟩ := hd
    rw [upsert] at h
    by_cases hk : k1 = k
    · rw [if_pos hk] at h
      rcases List.mem_cons.1 h with rfl | hm
      · exact Or.inl rfl
      · exact Or.inr (List.mem_cons_of_mem _ hm)
    · rw [if_neg hk] at h
      rcases List.mem_cons.1 h with rfl | hm
      · exact Or.inr (List.mem_cons_self _ _)
      · rcases ih hm with h1 | h1
        · exact Or.inl h1
        · exact Or.inr (List.mem_cons_of_mem _ h1)

theorem getD_default_or_mem {α : Type} (m : List (Nat × α)) (k : Nat) (d : α) :
    getD m k d = d ∨ (k, getD m k d) ∈ m := by
  induction m with
  | nil => exact Or.inl rfl
  | cons hd tl ih =>
    obtain ⟨k1, v1⟩ := hd
    rw [getD]
    by_cases hk : k1 = k
    · rw [if_pos hk, hk]
      exact Or.inr (List.mem_cons_self _ _)
    · rw [if_neg hk]
      rcases ih with h1 | h1
      · exact Or.inl h1
      · exact Or.inr (List.mem_cons_of_mem _ h1)

theorem getD_upsert_self {α : Type} (m : List (Nat × α)) (k : Nat) (v : α) (d : α) :
    getD (upsert m k v) k d = v := by
  induction m with
  | nil => simp [upsert, getD]
  | cons hd tl ih =>
    obtain ⟨k1, v1⟩ := hd
    rw [upsert]
    by_cases hk : k1 = k
    · rw [if_pos hk, getD, if_pos rfl]
    · rw [if_neg hk, getD, if_neg hk]
      exact ih

theorem getD_upsert_ne {α : Type} (m : List (Nat × α)) (k k2 : Nat) (v : α) (d : α)
    (hne : k ≠ k2) : getD (upsert m k v) k2 d = getD m k2 d := by
  induction m with
  | nil => simp [upsert, getD, hne]
  | cons hd tl ih =>
    obtain ⟨k1, v1⟩ := hd
    rw [upsert]
    by_cases hk : k1 = k
    · rw [if_pos hk, getD, if_neg hne, getD, hk, if_neg hne]
    · rw [if_neg hk, getD, getD]
      by_cases hk2 : k1 = k2
      · rw [if_pos hk2, if_pos hk2]
      · rw [if_neg hk2, if_neg hk2]
        exact ih

theorem mem_keys_upsert {α : Type} {m : List (Nat × α)} {k a : Nat} {v : α}
    (h : a ∈ (upsert m k v).map Prod.fst) : a ∈ m.map Prod.fst ∨ a = k := by
  rcases List.mem_map.1 h with ⟨kv, hkv, hfst⟩
  rcases mem_upsert hkv with rfl | h1
  · exact Or.inr hfst.symm
  · exact Or.inl (hfst ▸ List.mem_map_of_mem Prod.fst h1)

theorem keys_nodup_upsert {α : Type} {m : List (Nat × α)} (k : Nat) (v : α)
    (h : (m.map Prod.fst).Nodup) : ((upsert m k v).map Prod.fst).Nodup := by
  induction m with
  | nil => simp [upsert]
  | cons hd tl ih =>
    obtain ⟨k1, v1⟩ := hd
    rw [upsert]
    by_cases hk : k1 = k
    · rw [if_pos hk]
      simp only [List.map_cons, List.nodup_cons] at h ⊢
      rw [← hk]
      exact h
    · rw [if_neg hk]
      simp only [List.map_cons, List.nodup_cons] at h ⊢
      refine ⟨?_, ih h.2⟩
      intro hmem
      rcases mem_keys_upsert hmem with h1 | h1
      · exact h.1 h1
      · exact hk h1

theorem getD_of_mem_nodup {α : Type} {m : List (Nat × α)} {kv : Nat × α} (d : α)
    (hnd : (m.map Prod.fst).Nodup) (h : kv ∈ m) : getD m kv.1 d = kv.2 := by
  induction m with
  | nil => cases h
  | cons hd tl ih =>
    obtain ⟨k1, v1⟩ := hd
    simp only [List.map_cons, List.nodup_cons] at hnd
    rcases List.mem_cons.1 h with rfl | hm
    · rw [getD, if_pos rfl]
    · have hk : k1 ≠ kv.1 := by
        intro hkk
        exact hnd.1 (hkk ▸ List.mem_map_of_mem Prod.fst hm)
      rw [getD, if_neg hk]
      exact ih hnd.2 hm

/-! ## C3: the co-occurrence path's bound -/

theorem getD_length_bound {m : List (Nat × List Entry)} {topN : Nat}
    (hm : ∀ kv ∈ m, kv.2.length ≤ topN) (k : Nat) :
    (getD m k []).length ≤ topN := by
  rcases getD_default_or_mem m k ([] : List Entry) with h | h
  · rw [h]
    exact Nat.zero_le _
  · exact hm _ h

theorem upsert_length_bound {m : List (Nat × List Entry)} {topN : Nat}
    {k : Nat} {v : List Entry}
    (hm : ∀ kv ∈ m, kv.2.length ≤ topN) (hv : v.length ≤ topN) :
    ∀ kv ∈ upsert m k v, kv.2.length ≤ topN := by
  intro kv hkv
  rcases mem_upsert hkv with rfl | h
  · exact hv
  · exact hm kv h

theorem stepPair_bound (sqrtF log2F : ℚ → ℚ) (simType : String) (topN : Nat)
    (alpha : ℚ) (userItems itemUsers : Nat → Finset Nat)
    (m m2 : List (Nat × List Entry)) (p : Nat × Nat)
    (hm : ∀ kv ∈ m, kv.2.length ≤ topN)
    (hstep : stepPair sqrtF log2F simType topN alpha userItems itemUsers m p =
      Except.ok m2) :
    ∀ kv ∈ m2, kv.2.length ≤ topN := by
  rw [stepPair] at hstep
  by_cases hc : itemUsers p.1 ∩ itemUsers p.2 = ∅
  · rw [if_pos hc] at hstep
    cases hstep
    exact hm
  · rw [if_neg hc] at hstep
    cases hsim : simOf sqrtF log2F simType alpha userItems itemUsers p.1 p.2 with
    | none =>
      rw [hsim] at hstep
      cases hstep
    | some s =>
      rw [hsim] at hstep
      simp only [Except.ok.injEq] at hstep
      subst hstep
      have hm1 : ∀ kv ∈ upsert m p.1 (offer topN (getD m p.1 []) (s, p.2)),
          kv.2.length ≤ topN :=
        upsert_length_bound hm (length_offer_le _ (getD_length_bound hm _))
      exact upsert_length_bound hm1 (length_offer_le _ (getD_length_bound hm1 _))

theorem foldlM_except_inv {α β ε : Type} {f : β → α → Except ε β} {P : β → Prop}
    (hf : ∀ b a b2, P b → f b a = Except.ok b2 → P b2) :
    ∀ (l : List α) (b b2 : β), P b → l.foldlM f b = Except.ok b2 → P b2 := by
  intro l
  induction l with
  | nil =>
    intro b b2 hP h
    have h1 : Except.ok b = Except.ok b2 := h
    cases h1
    exact hP
  | cons a l ih =>
    intro b b2 hP h
    rw [List.foldlM_cons] at h
    cases hfa : f b a with
    | error e =>
      rw [hfa] at h
      have h1 : (Except.error e : Except ε β) = Except.ok b2 := h
      cases h1
    | ok b1 =>
      rw [hfa] at h
      have h1 : l.foldlM f b1 = Except.ok b2 := h
      exact ih b1 b2 (hf b a b1 hP hfa) h1

/-! ## C3: the embedding path's per-item lists -/

theorem searchE_length_le (indexType : String) (embs : List (List ℚ))
    (q : List ℚ) (k : Nat) : (searchE indexType embs q k).length ≤ k := by
  rw [searchE]
  exact List.length_take_le k _

theorem passesOf_length_le (threshold : ℚ) (ids : List Nat) (i : Nat)
    (res : List (ℚ × Nat)) : (passesOf threshold ids i res).length ≤ res.length := by
  rw [passesOf, List.length_map]
  exact List.length_filter_le _ _

theorem passesOf_length_lt (threshold : ℚ) (ids : List Nat) (i : Nat)
    (res : List (ℚ × Nat)) (hself : ∃ s, (s, i) ∈ res) :
    (passesOf threshold ids i res).length < res.length := by
  rw [passesOf, List.length_map]
  obtain ⟨s, hs⟩ := hself
  refine List.length_filter_lt_length_iff_exists.2 ⟨(s, i), hs, ?_⟩
  simp

theorem embInner_getD (threshold : ℚ) (ids : List Nat) (i itemI : Nat)
    (res : List (ℚ × Nat)) :
    ∀ (m : List (Nat × List (ℚ × Nat))) (k : Nat),
      getD (res.foldl (embAppendStep threshold ids i itemI) m) k [] =
        if k = itemI then getD m itemI [] ++ passesOf threshold ids i res
        else getD m k [] := by
  induction res with
  | nil =>
    intro m k
    by_cases hk : k = itemI
    · simp [passesOf, hk]
    · simp [passesOf, hk]
  | cons sj res ih =>
    intro m k
    rw [List.foldl_cons]
    by_cases hc : i ≠ sj.2 ∧ threshold ≤ sj.1
    · have hstep : embAppendStep threshold ids i itemI m sj =
          upsert m itemI (getD m itemI [] ++ [(sj.1, ids.getD sj.2 0)]) := by
        rw [embAppendStep, if_pos hc]
      have hpass : passesOf threshold ids i (sj :: res) =
          (sj.1, ids.getD sj.2 0) :: passesOf threshold ids i res := by
        simp only [passesOf, List.filter_cons, decide_eq_true_eq, if_pos hc, List.map_cons]
      rw [hstep, ih, hpass]
      by_cases hk : k = itemI
      · rw [if_pos hk, if_pos hk, getD_upsert_self, List.append_assoc,
          List.singleton_append]
      · rw [if_neg hk, if_neg hk,
          getD_upsert_ne _ _ _ _ _ (fun h => hk h.symm)]
    · have hstep : embAppendStep threshold ids i itemI m sj = m := by
        rw [embAppendStep, if_neg hc]
      have hpass : passesOf threshold ids i (sj :: res) =
          passesOf threshold ids i res := by
        simp only [passesOf, List.filter_cons, decide_eq_true_eq, if_neg hc]
      rw [hstep, ih, hpass]

theorem embInner_keys_nodup (threshold : ℚ) (ids : List Nat) (i itemI : Nat)
    (res : List (ℚ × Nat)) :
    ∀ m, (m.map Prod.fst).Nodup →
      ((res.foldl (embAppendStep threshold ids i itemI) m).map Prod.fst).Nodup := by
  induction res with
  | nil => exact fun m h => h
  | cons sj res ih =>
    intro m h
    rw [List.foldl_cons]
    apply ih
    rw [embAppendStep]
    by_cases hc : i ≠ sj.2 ∧ threshold ≤ sj.1
    · rw [if_pos hc]
      exact keys_nodup_upsert _ _ h
    · rw [if_neg hc]
      exact h

theorem embOuter_keys_nodup (indexType : String) (topN : Nat) (threshold : ℚ)
    (ids : List Nat) (embs1 : List (List ℚ)) (l : List (Nat × Nat)) :
    ∀ m, (m.map Prod.fst).Nodup →
      ((l.foldl (embQueryStep indexType topN threshold ids embs1) m).map
        Prod.fst).Nodup := by
  induction l with
  | nil => exact fun m h => h
  | cons jj l ih =>
    intro m h
    rw [List.foldl_cons]
    exact ih _ (embInner_keys_nodup threshold ids jj.1 jj.2 _ m h)

theorem embOuter_getD (indexType : String) (topN : Nat) (threshold : ℚ)
    (ids : List Nat) (embs1 : List (List ℚ)) (l : List (Nat × Nat)) :
    ∀ m, (l.map Prod.snd).Nodup →
      (∀ k, k ∉ l.map Prod.snd →
        getD (l.foldl (embQueryStep indexType topN threshold ids embs1) m) k [] =
          getD m k []) ∧
      (∀ ii ∈ l,
        getD (l.foldl (embQueryStep indexType topN threshold ids embs1) m) ii.2 [] =
          getD m ii.2 [] ++
            passesOf threshold ids ii.1
              (searchE indexType embs1 (embs1.getD ii.1 []) (topN + 1))) := by
  induction l with
  | nil =>
    intro m _
    exact ⟨fun k _ => rfl, fun ii hii => absurd hii (List.not_mem_nil ii)⟩
  | cons jj l ih =>
    intro m hnd
    simp only [List.map_cons, List.nodup_cons] at hnd
    obtain ⟨hjj, hnd2⟩ := hnd
    rw [List.foldl_cons]
    have hq : embQueryStep indexType topN threshold ids embs1 m jj =
        (searchE indexType embs1 (embs1.getD jj.1 []) (topN + 1)).foldl
          (embAppendStep threshold ids jj.1 jj.2) m := rfl
    constructor
    · intro k hk
      simp only [List.map_cons, List.mem_cons, not_or] at hk
      obtain ⟨hk1, hk2⟩ := hk
      rw [(ih _ hnd2).1 k hk2, hq, embInner_getD, if_neg hk1]
    · intro ii hii
      rcases List.mem_cons.1 hii with rfl | hmem
      · rw [(ih _ hnd2).1 ii.2 hjj, hq, embInner_getD, if_pos rfl]
      · have hne : ii.2 ≠ jj.2 := by
          intro h
          exact hjj (h ▸ List.mem_map_of_mem Prod.snd hmem)
        rw [(ih _ hnd2).2 ii hmem, hq, embInner_getD, if_neg hne]

theorem embCalc_bound (normalizeF : List (List ℚ) → List (List ℚ))
    (indexType : String) (normalize : Bool) (topN : Nat) (threshold : ℚ)
    (ids : List Nat) (embs : List (List ℚ))
    (r : List (Nat × List (ℚ × Nat))) (B : Nat)
    (hnd : ids.Nodup)
    (hok : calcSimilarityE normalizeF indexType normalize topN threshold ids embs =
      Except.ok r)
    (hB : ∀ ii ∈ ids.enum,
      (passesOf threshold ids ii.1
        (searchE indexType (if normalize then normalizeF embs else embs)
          ((if normalize then normalizeF embs else embs).getD ii.1 [])
          (topN + 1))).length ≤ B) :
    ∀ kv ∈ r, kv.2.length ≤ B := by
  by_cases hit : indexType = "IndexFlatIP" ∨ indexType = "IndexFlatL2"
  case neg =>
    simp only [calcSimilarityE, if_neg hit] at hok
    cases hok
  case pos =>
    simp only [calcSimilarityE, if_pos hit, Except.ok.injEq] at hok
    subst hok
    intro kv hkv
    have hnd2 : (ids.enum.map Prod.snd).Nodup := by
      rw [List.enum_map_snd]
      exact hnd
    have hkeys := embOuter_keys_nodup indexType topN threshold ids
      (if normalize then normalizeF embs else embs) ids.enum [] (by simp)
    have hget := getD_of_mem_nodup ([] : List (ℚ × Nat)) hkeys hkv
    rw [← hget]
    by_cases hkin : kv.1 ∈ ids.enum.map Prod.snd
    · rcases List.mem_map.1 hkin with ⟨ii, hii, hsndi⟩
      rw [← hsndi,
        (embOuter_getD indexType topN threshold ids
          (if normalize then normalizeF embs else embs) ids.enum [] hnd2).2 ii hii]
      simp only [getD, List.nil_append]
      exact hB ii hii
    · rw [(embOuter_getD indexType topN threshold ids
        (if normalize then normalizeF embs else embs) ids.enum [] hnd2).1 kv.1 hkin]
      simp [getD]

/-! ## C3: the claim -/

/-- Claim C3 fails on the code: with `top_n = 1` and three items carrying
identical embedding vectors, the exact `IndexFlatIP` search for the
last item returns the two other (equal-scoring) vectors as its
`top_n + 1 = 2` nearest neighbors — the item's own vector is pushed out —
so both hits survive the identity filter and the item retains 2 > top_n
neighbors. -/
theorem C3_counterexample :
    calcSimilarityE id ("IndexFlatIP") false 1 0 [5, 6, 7] [[1], [1], [1]] =
      Except.ok [(5, [((1 : ℚ), 6)]), (6, [((1 : ℚ), 5)]),
                 (7, [((1 : ℚ), 5), ((1 : ℚ), 6)])] ∧
    ¬ ([((1 : ℚ), 5), ((1 : ℚ), 6)].length ≤ 1) :=
  ⟨by with_unfolding_all rfl, by decide⟩

/-- Claim C3 as amended: the co-occurrence path maintains at most `top_n`
entries per anchor at every point (each pair step preserves the bound, and
the emitted result satisfies it).  The embedding path (with distinct item
ids) retains at most `top_n + 1` entries per item, and at most `top_n`
whenever each query's result list contains the item's own index (the
self-match assumed by the `+1`); with duplicate vectors the self-match can
be pushed out of the `top_n + 1` results and an item then retains
`top_n + 1` entries. -/
theorem C3_amended :
    (∀ (sqrtF log2F : ℚ → ℚ) (simType : String) (topN : Nat) (alpha : ℚ)
        (userItems itemUsers : Nat → Finset Nat)
        (m m2 : List (Nat × List Entry)) (p : Nat × Nat),
      (∀ kv ∈ m, kv.2.length ≤ topN) →
      stepPair sqrtF log2F simType topN alpha userItems itemUsers m p =
        Except.ok m2 →
      ∀ kv ∈ m2, kv.2.length ≤ topN) ∧
    (∀ (sqrtF log2F : ℚ → ℚ) (simType : String) (topN : Nat)
        (simParams : List (String × ℚ)) (rows : List (Nat × Nat))
        (r : List (Nat × List Entry)),
      calcSimilarity sqrtF log2F simType topN simParams rows = Except.ok r →
      ∀ kv ∈ r, kv.2.length ≤ topN) ∧
    (∀ (normalizeF : List (List ℚ) → List (List ℚ)) (indexType : String)
        (normalize : Bool) (topN : Nat) (threshold : ℚ) (ids : List Nat)
        (embs : List (List ℚ)) (r : List (Nat × List (ℚ × Nat))),
      ids.Nodup →
      calcSimilarityE normalizeF indexType normalize topN threshold ids embs =
        Except.ok r →
      ∀ kv ∈ r, kv.2.length ≤ topN + 1) ∧
    (∀ (normalizeF : List (List ℚ) → List (List ℚ)) (indexType : String)
        (normalize : Bool) (topN : Nat) (threshold : ℚ) (ids : List Nat)
        (embs : List (List ℚ)) (r : List (Nat × List (ℚ × Nat))),
      ids.Nodup →
      (∀ ii ∈ ids.enum, ∃ s, (s, ii.1) ∈
        searchE indexType (if normalize then normalizeF embs else embs)
          ((if normalize then normalizeF embs else embs).getD ii.1 [])
          (topN + 1)) →
      calcSimilarityE normalizeF indexType normalize topN threshold ids embs =
        Except.ok r →
      ∀ kv ∈ r, kv.2.length ≤ topN) := by
  refine ⟨?_, ?_, ?_, ?_⟩
  · exact fun sqrtF log2F simType topN alpha userItems itemUsers m m2 p hm hstep =>
      stepPair_bound sqrtF log2F simType topN alpha userItems itemUsers m m2 p hm hstep
  · intro sqrtF log2F simType topN simParams rows r hok
    simp only [calcSimilarity] at hok
    exact foldlM_except_inv
      (fun b a b2 hP hfb =>
        stepPair_bound sqrtF log2F simType topN
          ((simParams.lookup ("alpha" : String)).getD 1)
          (userItemsOf rows) (itemUsersOf rows) b b2 a hP hfb)
      _ _ _ (fun kv hkv => absurd hkv (List.not_mem_nil kv)) hok
  · intro normalizeF indexType normalize topN threshold ids embs r hnd hok
    refine embCalc_bound normalizeF indexType normalize topN threshold ids embs r
      (topN + 1) hnd hok ?_
    intro ii _
    exact le_trans (passesOf_length_le _ _ _ _) (searchE_length_le _ _ _ _)
  · intro normalizeF indexType normalize topN threshold ids embs r hnd hself hok
    refine embCalc_bound normalizeF indexType normalize topN threshold ids embs r
      topN hnd hok ?_
    intro ii hii
    have hlt := passesOf_length_lt threshold ids ii.1
      (searchE indexType (if normalize then normalizeF embs else embs)
        ((if normalize then normalizeF embs else embs).getD ii.1 [])
        (topN + 1)) (hself ii hii)
    have hle := searchE_length_le indexType
      (if normalize then normalizeF embs else embs)
      ((if normalize then normalizeF embs else embs).getD ii.1 []) (topN + 1)
    omega

/-- Witness for C3: the co-occurrence part on a one-pair group with
`top_n = 2`, and the embedding `top_n + 1` bound on the duplicate-vector
snapshot with `top_n = 1`. -/
theorem C3_witness :
    calcSimilarity id id ("jaccard") 2 [] [(1, 10), (1, 20)] =
      Except.ok [(10, [((1 : ℚ), 20)]), (20, [((1 : ℚ), 10)])] ∧
    [((1 : ℚ), 20)].length ≤ 2 ∧
    [((1 : ℚ), 5), ((1 : ℚ), 6)].length ≤ 1 + 1 := by
  refine ⟨by with_unfolding_all rfl, ?_, ?_⟩
  · exact C3_amended.2.1 id id ("jaccard") 2 [] [(1, 10), (1, 20)]
      [(10, [((1 : ℚ), 20)]), (20, [((1 : ℚ), 10)])]
      (by with_unfolding_all rfl) (10, [((1 : ℚ), 20)]) (by decide)
  · exact C3_amended.2.2.1 id ("IndexFlatIP") false 1 0 [5, 6, 7] [[1], [1], [1]]
      [(5, [((1 : ℚ), 6)]), (6, [((1 : ℚ), 5)]), (7, [((1 : ℚ), 5), ((1 : ℚ), 6)])]
      (by decide) (by with_unfolding_all rfl)
      (7, [((1 : ℚ), 5), ((1 : ℚ), 6)]) (by decide)

end MVPRec
